import Mathlib

/-!
Verification of the progress-synchronization core of paperless-ai-renamer.

The definitions below are a shallow embedding of the TypeScript frontend:

* `JobSnapshot`, `Feed` — `ProgressResponse` records and the job-id → snapshot
  mapping delivered by the `/progress` endpoint
  (`src/frontend/src/services/api.ts`).
* `failureEvents`, `newErrorEvents`, `completionEvents` — the transition
  detection performed by the ActivityBar and ArchiveBrowser progress
  subscribers when the `ProgressContext` store invokes them with
  `(current, previous)`.
* `BrowserState`, `fetchStart`/`fetchSuccess`/`fetchFailure`,
  `scrollStep`, `invalidationRefetch` — the ArchiveBrowser's paginated,
  per-category archive loader.
* `StabState`, `stabPush`, `stabFire` — the ActivityBar's minimum-display-time
  debounce of rendered progress.
* `notifyRound` — `notifySubscribers`' iteration over the subscriber set.
* `loopStep` — the long-poll driving loop of `ProgressContext`.
-/

namespace PaperlessRenamer

/-- One `{document_id, error}` entry from `ProgressResponse.errors`. -/
structure DocumentError where
  document_id : Int
  error : String
deriving DecidableEq, Repr

/-- A single job snapshot (`ProgressResponse` in `api.ts`).  Only the fields
the synchronization core inspects are modelled; all of them are optional in
the TypeScript interface, hence the `Option`s.  `status` is a plain string in
the source (`'running' | 'completed' | 'failed'`), compared literally. -/
structure JobSnapshot where
  status : Option String
  total : Option Nat
  processed : Option Nat
  error : Option String
  errors : Option (List DocumentError)
deriving DecidableEq, Repr

/-- A progress feed: the `Record<string, ProgressResponse>` held by the
`ProgressContext` store, as an association list.  A JS object has no
duplicate keys, which proofs assume through `keysNodup`. -/
abbrev Feed := List (String × JobSnapshot)

/-- JS-object key uniqueness for a feed. -/
def keysNodup (f : Feed) : Prop := (f.map Prod.fst).Nodup

instance (f : Feed) : Decidable (keysNodup f) :=
  inferInstanceAs (Decidable (f.map Prod.fst).Nodup)

/-- `feed[j]` — property access on the JS record (`previousProgress[jobId]`). -/
def lookupJob : Feed → String → Option JobSnapshot
  | [], _ => none
  | (k, v) :: rest, j => if k = j then some v else lookupJob rest j

/-- `previousJob?.status === 'running' && job.status === 'failed'`
(ActivityBar lines 25–34, ArchiveBrowser lines 132–141): the job-failure
toast condition, evaluated for every entry of the current feed in
`Object.entries` order. -/
def failureEvents : Feed → Feed → List String
  | [], _ => []
  | p :: rest, previous =>
    if ((lookupJob previous p.1).bind JobSnapshot.status == some "running")
        && (p.2.status == some "failed")
    then p.1 :: failureEvents rest previous
    else failureEvents rest previous

/-- The ActivityBar's new-document-error detection (lines 36–50):
`job.status === 'running' && job.errors && job.errors.length > 0`, then
`job.errors.length > (previousJob?.errors?.length || 0)`, reporting
`job.errors.slice(previousErrorCount)`. -/
def newErrorEvents : Feed → Feed → List (String × List DocumentError)
  | [], _ => []
  | p :: rest, previous =>
    if (p.2.status == some "running") && !(p.2.errors.getD []).isEmpty then
      if ((lookupJob previous p.1).bind JobSnapshot.errors |>.getD []).length
          < (p.2.errors.getD []).length then
        (p.1, (p.2.errors.getD []).drop
            ((lookupJob previous p.1).bind JobSnapshot.errors |>.getD []).length)
          :: newErrorEvents rest previous
      else newErrorEvents rest previous
    else newErrorEvents rest previous

/-- `previousJob?.status === 'running' && (job.status === 'completed' || job.status === 'failed')`
(ArchiveBrowser line 145). -/
def jobJustCompleted (prevJob : Option JobSnapshot) (job : JobSnapshot) : Bool :=
  (prevJob.bind JobSnapshot.status == some "running")
    && ((job.status == some "completed") || (job.status == some "failed"))

/-- `(job.status === 'completed' || job.status === 'failed') && previousJob?.status !== job.status`
(ArchiveBrowser line 146). -/
def jobNowCompleted (prevJob : Option JobSnapshot) (job : JobSnapshot) : Bool :=
  ((job.status == some "completed") || (job.status == some "failed"))
    && !(prevJob.bind JobSnapshot.status == job.status)

/-- Job ids for which the ArchiveBrowser subscriber fires its archive-refresh
block (`if (jobJustCompleted || jobNowCompleted)`, lines 143–166). -/
def completionEvents : Feed → Feed → List String
  | [], _ => []
  | p :: rest, previous =>
    if jobJustCompleted (lookupJob previous p.1) p.2
        || jobNowCompleted (lookupJob previous p.1) p.2
    then p.1 :: completionEvents rest previous
    else completionEvents rest previous

lemma lookupJob_cons (k : String) (v : JobSnapshot) (rest : Feed) (j : String) :
    lookupJob ((k, v) :: rest) j = if k = j then some v else lookupJob rest j := rfl

lemma mem_completionEvents_keys {current previous : Feed} {j : String}
    (h : j ∈ completionEvents current previous) : j ∈ current.map Prod.fst := by
  induction current with
  | nil => simp [completionEvents] at h
  | cons p rest ih =>
    rw [completionEvents] at h
    by_cases hc : (jobJustCompleted (lookupJob previous p.1) p.2
        || jobNowCompleted (lookupJob previous p.1) p.2) = true
    · rw [if_pos hc] at h
      rcases List.mem_cons.mp h with h | h
      · simp [h]
      · exact List.mem_cons_of_mem _ (ih h)
    · rw [if_neg hc] at h
      exact List.mem_cons_of_mem _ (ih h)

lemma mem_newErrorEvents_keys {current previous : Feed} {j : String}
    {es : List DocumentError}
    (h : (j, es) ∈ newErrorEvents current previous) : j ∈ current.map Prod.fst := by
  induction current with
  | nil => simp [newErrorEvents] at h
  | cons p rest ih =>
    rw [newErrorEvents] at h
    by_cases h1 : ((p.2.status == some "running") && !(p.2.errors.getD []).isEmpty) = true
    · rw [if_pos h1] at h
      by_cases h2 : ((lookupJob previous p.1).bind JobSnapshot.errors |>.getD []).length
          < (p.2.errors.getD []).length
      · rw [if_pos h2] at h
        rcases List.mem_cons.mp h with h | h
        · have : j = p.1 := congrArg Prod.fst h
          simp [this]
        · exact List.mem_cons_of_mem _ (ih h)
      · rw [if_neg h2] at h
        exact List.mem_cons_of_mem _ (ih h)
    · rw [if_neg h1] at h
      exact List.mem_cons_of_mem _ (ih h)

lemma bool_running_and_terminal_false (st : Option String) :
    ((st == some "running")
      && ((st == some "completed") || (st == some "failed"))) = false := by
  by_cases h : st = some "running"
  · subst h; decide
  · have : (st == some "running") = false := beq_eq_false_iff_ne.mpr h
    simp [this]

lemma bool_running_and_failed_false (st : Option String) :
    ((st == some "running") && (st == some "failed")) = false := by
  by_cases h : st = some "running"
  · subst h; decide
  · have : (st == some "running") = false := beq_eq_false_iff_ne.mpr h
    simp [this]

lemma lookupJob_self {F : Feed} (h : keysNodup F) :
    ∀ p ∈ F, lookupJob F p.1 = some p.2 := by
  induction F with
  | nil => intro p hp; simp at hp
  | cons q rest ih =>
    have hq : q.1 ∉ rest.map Prod.fst := (List.nodup_cons.mp h).1
    have hrest : keysNodup rest := (List.nodup_cons.mp h).2
    intro p hp
    rcases List.mem_cons.mp hp with hp | hp
    · subst hp; simp [lookupJob]
    · have hne : q.1 ≠ p.1 := by
        intro hEq
        exact hq (hEq ▸ List.mem_map_of_mem Prod.fst hp)
      have hstep : lookupJob (q :: rest) p.1
          = if q.1 = p.1 then some q.2 else lookupJob rest p.1 := rfl
      rw [hstep, if_neg hne]
      exact ih hrest p hp

lemma events_self_nil (L F : Feed) (hL : ∀ p ∈ L, lookupJob F p.1 = some p.2) :
    failureEvents L F = [] ∧ newErrorEvents L F = [] ∧ completionEvents L F = [] := by
  induction L with
  | nil => simp [failureEvents, newErrorEvents, completionEvents]
  | cons p rest ih =>
    have hp := hL p (List.mem_cons_self p rest)
    have hrest := ih (fun q hq => hL q (List.mem_cons_of_mem _ hq))
    refine ⟨?_, ?_, ?_⟩
    · rw [failureEvents, hp, Option.some_bind,
        if_neg (by simp [bool_running_and_failed_false])]
      exact hrest.1
    · rw [newErrorEvents, hp, Option.some_bind]
      by_cases h1 : ((p.2.status == some "running") && !(p.2.errors.getD []).isEmpty) = true
      · rw [if_pos h1, if_neg (Nat.lt_irrefl _)]
        exact hrest.2.1
      · rw [if_neg h1]
        exact hrest.2.1
    · have h1 : jobJustCompleted (some p.2) p.2 = false := by
        rw [jobJustCompleted, Option.some_bind]
        exact bool_running_and_terminal_false _
      have h2 : jobNowCompleted (some p.2) p.2 = false := by
        simp [jobNowCompleted]
      rw [completionEvents, hp, if_neg (by simp [h1, h2])]
      exact hrest.2.2

/-- C4 — Idempotence of the transition notifier: delivering the pair
`(F, F)` (an unchanged snapshot) to the subscribers produces no failure
event, no new-error event and no completion event. -/
theorem notifier_idempotent (F : Feed) (h : keysNodup F) :
    failureEvents F F = [] ∧ newErrorEvents F F = [] ∧ completionEvents F F = [] :=
  events_self_nil F F (lookupJob_self h)

/-- Witness for C4 at a concrete two-job feed. -/
theorem notifier_idempotent_witness :
    failureEvents
        [("index", ⟨some "running", some 10, some 3, none, some [⟨5, "x"⟩]⟩),
         ("scan-1", ⟨some "completed", none, none, none, none⟩)]
        [("index", ⟨some "running", some 10, some 3, none, some [⟨5, "x"⟩]⟩),
         ("scan-1", ⟨some "completed", none, none, none, none⟩)] = []
    ∧ newErrorEvents
        [("index", ⟨some "running", some 10, some 3, none, some [⟨5, "x"⟩]⟩),
         ("scan-1", ⟨some "completed", none, none, none, none⟩)]
        [("index", ⟨some "running", some 10, some 3, none, some [⟨5, "x"⟩]⟩),
         ("scan-1", ⟨some "completed", none, none, none, none⟩)] = []
    ∧ completionEvents
        [("index", ⟨some "running", some 10, some 3, none, some [⟨5, "x"⟩]⟩),
         ("scan-1", ⟨some "completed", none, none, none, none⟩)]
        [("index", ⟨some "running", some 10, some 3, none, some [⟨5, "x"⟩]⟩),
         ("scan-1", ⟨some "completed", none, none, none, none⟩)] = [] :=
  notifier_idempotent _ (by decide)

lemma completion_fire_iff (prevJob : Option JobSnapshot) (job : JobSnapshot) :
    (jobJustCompleted prevJob job || jobNowCompleted prevJob job) = true ↔
      ((prevJob.bind JobSnapshot.status = some "running"
          ∧ (job.status = some "completed" ∨ job.status = some "failed"))
        ∨ ((job.status = some "completed" ∨ job.status = some "failed")
          ∧ prevJob.bind JobSnapshot.status ≠ job.status)) := by
  simp [jobJustCompleted, jobNowCompleted]

lemma lookupJob_cons_self {p : String × JobSnapshot} {rest : Feed} :
    lookupJob (p :: rest) p.1 = some p.2 := by
  have hstep : lookupJob (p :: rest) p.1
      = if p.1 = p.1 then some p.2 else lookupJob rest p.1 := rfl
  rw [hstep, if_pos rfl]

lemma lookupJob_cons_ne {p : String × JobSnapshot} {rest : Feed} {j : String}
    (h : p.1 ≠ j) : lookupJob (p :: rest) j = lookupJob rest j := by
  have hstep : lookupJob (p :: rest) j
      = if p.1 = j then some p.2 else lookupJob rest j := rfl
  rw [hstep, if_neg h]

/-- C1 — The ArchiveBrowser progress subscriber emits a completion event
(and hence the archive refresh) for job id `j` exactly once per delivered
`(current, previous)` pair iff `previous[j].status = running` and
`current[j].status ∈ {completed, failed}`, or `current[j].status` is terminal
and `previous[j].status` differs from it (a missing previous entry counting
as different); and it never fires more than once for the same id. -/
theorem completion_event_fires_iff (current previous : Feed) (h : keysNodup current)
    (j : String) :
    ((completionEvents current previous).count j = 1 ↔
      ∃ job, lookupJob current j = some job ∧
        (((lookupJob previous j).bind JobSnapshot.status = some "running"
            ∧ (job.status = some "completed" ∨ job.status = some "failed"))
          ∨ ((job.status = some "completed" ∨ job.status = some "failed")
            ∧ (lookupJob previous j).bind JobSnapshot.status ≠ job.status)))
    ∧ (completionEvents current previous).count j ≤ 1 := by
  induction current with
  | nil =>
    refine ⟨?_, ?_⟩
    · simp [completionEvents, lookupJob]
    · simp [completionEvents]
  | cons p rest ih =>
    have hk : p.1 ∉ rest.map Prod.fst := (List.nodup_cons.mp h).1
    have hrest := ih (List.nodup_cons.mp h).2
    by_cases hkj : p.1 = j
    · have hl : lookupJob (p :: rest) j = some p.2 := hkj ▸ lookupJob_cons_self
      have hz : (completionEvents rest previous).count j = 0 :=
        List.count_eq_zero.mpr (fun hm => hk (hkj ▸ mem_completionEvents_keys hm))
      rw [completionEvents]
      by_cases hf : (jobJustCompleted (lookupJob previous p.1) p.2
          || jobNowCompleted (lookupJob previous p.1) p.2) = true
      · rw [if_pos hf]
        have hcnt : (p.1 :: completionEvents rest previous).count j = 1 := by
          rw [List.count_cons, hz]
          simp [hkj]
        refine ⟨⟨fun _ => ⟨p.2, hl, ?_⟩, fun _ => hcnt⟩, le_of_eq hcnt⟩
        rw [← hkj]
        exact (completion_fire_iff _ _).mp hf
      · rw [if_neg hf]
        rw [hz]
        refine ⟨⟨fun h01 => absurd h01 (by omega), ?_⟩, by omega⟩
        rintro ⟨job, hjob, hcond⟩
        rw [hl] at hjob
        cases hjob
        rw [← hkj] at hcond
        exact (hf ((completion_fire_iff _ _).mpr hcond)).elim
    · have hl : lookupJob (p :: rest) j = lookupJob rest j := lookupJob_cons_ne hkj
      rw [completionEvents, hl]
      by_cases hf : (jobJustCompleted (lookupJob previous p.1) p.2
          || jobNowCompleted (lookupJob previous p.1) p.2) = true
      · rw [if_pos hf, List.count_cons]
        simpa [hkj] using hrest
      · rw [if_neg hf]
        exact hrest

/-- Witness for C1: a job terminal in `current` and absent from `previous`
fires exactly one completion event. -/
theorem completion_event_fires_iff_witness :
    ((completionEvents [("scan-1", ⟨some "completed", none, none, none, none⟩)] []).count
        "scan-1" = 1 ↔
      ∃ job, lookupJob [("scan-1", ⟨some "completed", none, none, none, none⟩)] "scan-1"
          = some job ∧
        (((lookupJob [] "scan-1").bind JobSnapshot.status = some "running"
            ∧ (job.status = some "completed" ∨ job.status = some "failed"))
          ∨ ((job.status = some "completed" ∨ job.status = some "failed")
            ∧ (lookupJob [] "scan-1").bind JobSnapshot.status ≠ job.status)))
    ∧ (completionEvents [("scan-1", ⟨some "completed", none, none, none, none⟩)] []).count
        "scan-1" ≤ 1 :=
  completion_event_fires_iff _ [] (by decide) "scan-1"

lemma newErrorEvents_countP_zero {current previous : Feed} {j : String}
    (h : j ∉ current.map Prod.fst) :
    (newErrorEvents current previous).countP (fun e => e.1 == j) = 0 := by
  rw [List.countP_eq_zero]
  intro e he hbe
  have : e.1 = j := by simpa using hbe
  exact h (this ▸ mem_newErrorEvents_keys (show (e.1, e.2) ∈ _ from he))

/-- C5 — A new-error event is emitted for job id `j` iff
`current[j].status = running` and `current[j].errors.length` exceeds
`previous[j].errors.length` (a missing previous entry counting as zero),
and the event carries exactly the newly appended index-based suffix of
`current[j].errors`; at most one such event fires per id per delivery. -/
theorem new_error_event_iff (current previous : Feed) (h : keysNodup current)
    (j : String) (es : List DocumentError) :
    (((j, es) ∈ newErrorEvents current previous) ↔
      ∃ job, lookupJob current j = some job ∧ job.status = some "running"
        ∧ ((lookupJob previous j).bind JobSnapshot.errors |>.getD []).length
            < (job.errors.getD []).length
        ∧ es = (job.errors.getD []).drop
            ((lookupJob previous j).bind JobSnapshot.errors |>.getD []).length)
    ∧ (newErrorEvents current previous).countP (fun e => e.1 == j) ≤ 1 := by
  induction current with
  | nil =>
    refine ⟨?_, ?_⟩
    · simp [newErrorEvents, lookupJob]
    · simp [newErrorEvents]
  | cons p rest ih =>
    have hk : p.1 ∉ rest.map Prod.fst := (List.nodup_cons.mp h).1
    have hrest := ih (List.nodup_cons.mp h).2
    by_cases hkj : p.1 = j
    · have hl : lookupJob (p :: rest) j = some p.2 := hkj ▸ lookupJob_cons_self
      have hznm : ∀ es', (j, es') ∉ newErrorEvents rest previous := fun es' hm =>
        hk (hkj ▸ mem_newErrorEvents_keys hm)
      have hz : (newErrorEvents rest previous).countP (fun e => e.1 == j) = 0 :=
        newErrorEvents_countP_zero (hkj ▸ hk)
      rw [newErrorEvents]
      by_cases h1 : ((p.2.status == some "running") && !(p.2.errors.getD []).isEmpty) = true
      · rw [if_pos h1]
        have hrun : p.2.status = some "running" := by
          have := (Bool.and_eq_true _ _).mp h1
          simpa using this.1
        by_cases h2 : ((lookupJob previous p.1).bind JobSnapshot.errors |>.getD []).length
            < (p.2.errors.getD []).length
        · rw [if_pos h2]
          refine ⟨?_, ?_⟩
          · rw [List.mem_cons]
            constructor
            · rintro (hEq | hm)
              · refine ⟨p.2, hl, hrun, ?_, ?_⟩
                · rw [← hkj]; exact h2
                · rw [← hkj]
                  exact congrArg Prod.snd hEq
              · exact absurd hm (hznm es)
            · rintro ⟨job, hjob, _, _, hes⟩
              rw [hl] at hjob
              cases hjob
              left
              rw [Prod.mk.injEq]
              refine ⟨hkj.symm, ?_⟩
              rw [hes, hkj]
          · rw [List.countP_cons]
            simp [hkj, hz]
        · rw [if_neg h2]
          refine ⟨?_, le_trans (le_of_eq hz) (by omega)⟩
          constructor
          · intro hm
            exact absurd hm (hznm es)
          · rintro ⟨job, hjob, _, hlen, _⟩
            rw [hl] at hjob
            cases hjob
            rw [← hkj] at hlen
            exact absurd hlen h2
      · rw [if_neg h1]
        refine ⟨?_, le_trans (le_of_eq hz) (by omega)⟩
        constructor
        · intro hm
          exact absurd hm (hznm es)
        · rintro ⟨job, hjob, hrun, hlen, _⟩
          rw [hl] at hjob
          cases hjob
          refine (h1 ?_).elim
          rw [Bool.and_eq_true]
          refine ⟨by simp [hrun], ?_⟩
          have hne : p.2.errors.getD [] ≠ [] := by
            intro hnil
            rw [hnil] at hlen
            simp at hlen
          simp [List.isEmpty_iff, hne]
    · have hl : lookupJob (p :: rest) j = lookupJob rest j := lookupJob_cons_ne hkj
      rw [newErrorEvents, hl]
      by_cases h1 : ((p.2.status == some "running") && !(p.2.errors.getD []).isEmpty) = true
      · rw [if_pos h1]
        by_cases h2 : ((lookupJob previous p.1).bind JobSnapshot.errors |>.getD []).length
            < (p.2.errors.getD []).length
        · rw [if_pos h2]
          refine ⟨?_, ?_⟩
          · rw [List.mem_cons]
            constructor
            · rintro (hEq | hm)
              · exact absurd (congrArg Prod.fst hEq) (Ne.symm hkj)
              · exact hrest.1.mp hm
            · intro hx
              right
              exact hrest.1.mpr hx
          · rw [List.countP_cons]
            simpa [hkj] using hrest.2
        · rw [if_neg h2]
          exact hrest
      · rw [if_neg h1]
        exact hrest

/-- Witness for C5: a running job whose error list grew from 0 to 1 entries
fires one event carrying exactly the appended suffix. -/
theorem new_error_event_iff_witness :
    ((("index", [(⟨5, "x"⟩ : DocumentError)]) ∈ newErrorEvents
        [("index", ⟨some "running", none, none, none, some [⟨5, "x"⟩]⟩)]
        [("index", ⟨some "running", none, none, none, some []⟩)]) ↔
      ∃ job, lookupJob [("index", ⟨some "running", none, none, none, some [⟨5, "x"⟩]⟩)]
          "index" = some job ∧ job.status = some "running"
        ∧ ((lookupJob [("index", ⟨some "running", none, none, none, some []⟩)]
              "index").bind JobSnapshot.errors |>.getD []).length
            < (job.errors.getD []).length
        ∧ [(⟨5, "x"⟩ : DocumentError)] = (job.errors.getD []).drop
            ((lookupJob [("index", ⟨some "running", none, none, none, some []⟩)]
              "index").bind JobSnapshot.errors |>.getD []).length)
    ∧ (newErrorEvents
        [("index", ⟨some "running", none, none, none, some [⟨5, "x"⟩]⟩)]
        [("index", ⟨some "running", none, none, none, some []⟩)]).countP
          (fun e => e.1 == "index") ≤ 1 :=
  new_error_event_iff _ _ (by decide) "index" [⟨5, "x"⟩]

/-!
## ArchiveBrowser: the paginated, cross-invalidating archive loader

Embedding of `src/unnamed/part_002` (the `ArchiveBrowser` component).
The four `useState` item lists (`renameItems` … `errorItems`), and the
per-category records `hasMore`, `currentPage` and `fetchingRef`, are bundled
as `PerCat` values; `initialFetching` (a JS `Set`) is a duplicate-free list.
`fetchArchive` is split at its `await` into `fetchStart` (everything before
the request), `fetchSuccess` (the `try` continuation plus `finally`) and
`fetchFailure` (the `catch` plus `finally`); the `Bool`/request lists record
whether the guarded network request was actually issued.
-/

/-- The `ArchiveType` union (`'rename' | 'index' | 'scan' | 'error'`). -/
inductive ArchiveType where
  | rename
  | index
  | scan
  | error
deriving DecidableEq, Repr

/-- The three tabs of the ArchiveBrowser (`'rename' | 'jobs' | 'issues'`). -/
inductive Tab where
  | rename
  | jobs
  | issues
deriving DecidableEq, Repr

/-- A record with one field per archive category, mirroring the
`Record<string, …>` objects keyed by the four categories. -/
structure PerCat (α : Type) where
  rename : α
  index : α
  scan : α
  error : α
deriving DecidableEq, Repr

def PerCat.get (m : PerCat α) : ArchiveType → α
  | .rename => m.rename
  | .index => m.index
  | .scan => m.scan
  | .error => m.error

def PerCat.set (m : PerCat α) : ArchiveType → α → PerCat α
  | .rename, a => { m with rename := a }
  | .index, a => { m with index := a }
  | .scan, a => { m with scan := a }
  | .error, a => { m with error := a }

lemma PerCat.get_set (m : PerCat α) (c c' : ArchiveType) (a : α) :
    (m.set c a).get c' = if c' = c then a else m.get c' := by
  cases c <;> cases c' <;> simp [PerCat.get, PerCat.set]

lemma PerCat.get_set_same (m : PerCat α) (c : ArchiveType) (a : α) :
    (m.set c a).get c = a := by
  rw [PerCat.get_set, if_pos rfl]

lemma PerCat.get_set_ne (m : PerCat α) {c c' : ArchiveType} (h : c' ≠ c) (a : α) :
    (m.set c a).get c' = m.get c' := by
  rw [PerCat.get_set, if_neg h]

/-- Archive records are opaque payloads to the loader (`items: any[]`);
only their grouping into pages matters. -/
abbrev ArchiveItem := Nat

/-- `ArchiveResponse` from `api.ts` (`{items, total, page, limit, has_more}`). -/
structure ArchiveResponse where
  items : List ArchiveItem
  total : Nat
  page : Nat
  limit : Nat
  has_more : Bool
deriving DecidableEq, Repr

/-- The arguments of one `fetchArchive(type, page, append, isInitial)` call. -/
structure FetchParams where
  type : ArchiveType
  page : Nat
  append : Bool
  isInitial : Bool
deriving DecidableEq, Repr

/-- The ArchiveBrowser state touched by the loader: the four item lists,
the shared `loading` flag, the `initialFetching` set, the category-scoped
`error` message, and the per-category `hasMore` / `currentPage` /
`fetchingRef` records. -/
structure BrowserState where
  items : PerCat (List ArchiveItem)
  loading : Bool
  initialFetching : List ArchiveType
  errorMsg : Option String
  hasMore : PerCat Bool
  currentPage : PerCat Nat
  fetching : PerCat Bool
deriving DecidableEq, Repr

/-- `fetchArchive` up to the `await` (lines 47–60): the
`if (fetchingRef.current[type]) return;` guard, `fetchingRef` set,
`setLoading(true)` or `initialFetching` tracking, `setError(null)`.
The boolean reports whether the network request was issued. -/
def fetchStart (p : FetchParams) (s : BrowserState) : BrowserState × Bool :=
  if s.fetching.get p.type then (s, false)
  else
    let s1 := { s with fetching := s.fetching.set p.type true }
    let s2 :=
      if p.isInitial then { s1 with initialFetching := s1.initialFetching.insert p.type }
      else { s1 with loading := true }
    ({ s2 with errorMsg := none }, true)

/-- The `finally` block of `fetchArchive` (lines 78–90). -/
def fetchFinally (p : FetchParams) (s : BrowserState) : BrowserState :=
  let s1 := { s with fetching := s.fetching.set p.type false }
  if p.isInitial then { s1 with initialFetching := s1.initialFetching.erase p.type }
  else { s1 with loading := false }

/-- The `try` continuation of `fetchArchive` after a successful response
(lines 61–75) followed by `finally`: items replaced or appended, `hasMore`
taken from the response.  Note that `currentPage` is not touched. -/
def fetchSuccess (p : FetchParams) (resp : ArchiveResponse) (s : BrowserState) :
    BrowserState :=
  let newItems := if p.append then s.items.get p.type ++ resp.items else resp.items
  fetchFinally p
    { s with items := s.items.set p.type newItems,
             hasMore := s.hasMore.set p.type resp.has_more }

/-- The `catch` branch of `fetchArchive` (lines 76–77) followed by
`finally`: only the category-scoped error message is surfaced. -/
def fetchFailure (p : FetchParams) (msg : String) (s : BrowserState) : BrowserState :=
  fetchFinally p { s with errorMsg := some msg }

/-- The categories the infinite-scroll observer serves on each tab. -/
def tabCats : Tab → List ArchiveType
  | .rename => [.rename]
  | .jobs => [.index, .scan]
  | .issues => [.error]

/-- The `IntersectionObserver` callback (lines 196–227) on an intersection,
for the active tab: for each served category, if `hasMore` and not
`fetchingRef`, increment the page counter *first* and then call
`fetchArchive(type, nextPage, append = true)`.  On the `jobs` tab the `scan`
block reads `hasMore`/`currentPage` from the effect closure (the state at
observer setup) but `fetchingRef` live; the returned list records the
requests actually issued. -/
def scrollStep (tab : Tab) (s : BrowserState) : BrowserState × List FetchParams :=
  if s.loading then (s, [])
  else
    match tab with
    | .rename =>
      if s.hasMore.get .rename && !(s.fetching.get .rename) then
        let np := s.currentPage.get .rename + 1
        let s1 := { s with currentPage := s.currentPage.set .rename np }
        let r := fetchStart ⟨.rename, np, true, false⟩ s1
        (r.1, if r.2 then [⟨.rename, np, true, false⟩] else [])
      else (s, [])
    | .jobs =>
      let r1 :=
        if s.hasMore.get .index && !(s.fetching.get .index) then
          let np := s.currentPage.get .index + 1
          let t := { s with currentPage := s.currentPage.set .index np }
          let r := fetchStart ⟨.index, np, true, false⟩ t
          (r.1, if r.2 then [(⟨.index, np, true, false⟩ : FetchParams)] else [])
        else (s, ([] : List FetchParams))
      let r2 :=
        if s.hasMore.get .scan && !(r1.1.fetching.get .scan) then
          let np := s.currentPage.get .scan + 1
          let t := { r1.1 with currentPage := r1.1.currentPage.set .scan np }
          let r := fetchStart ⟨.scan, np, true, false⟩ t
          (r.1, if r.2 then [(⟨.scan, np, true, false⟩ : FetchParams)] else [])
        else (r1.1, ([] : List FetchParams))
      (r2.1, r1.2 ++ r2.2)
    | .issues =>
      if s.hasMore.get .error && !(s.fetching.get .error) then
        let np := s.currentPage.get .error + 1
        let s1 := { s with currentPage := s.currentPage.set .error np }
        let r := fetchStart ⟨.error, np, true, false⟩ s1
        (r.1, if r.2 then [⟨.error, np, true, false⟩] else [])
      else (s, [])

/-- JS `s.startsWith(pre)`, expressed over the character lists of the two
strings. -/
def strStartsWith (s pre : String) : Bool := pre.data.isPrefixOf s.data

/-- The categories refetched by the progress subscriber's completion block
(lines 150–165): `index` when the finished job is the index job, `scan` for
scan jobs (`jobId.startsWith('scan') || jobId === 'scan'`), plus always
`rename` and `error`. -/
def invalidationTargets (jobId : String) : List ArchiveType :=
  (if jobId = "index" then [ArchiveType.index]
   else if strStartsWith jobId "scan" || jobId == "scan" then [ArchiveType.scan]
   else []) ++ [ArchiveType.rename, ArchiveType.error]

/-- Run a sequence of `fetchArchive` call-starts, collecting the requests
that survive the in-flight guard. -/
def runFetchStarts : List FetchParams → BrowserState → BrowserState × List FetchParams
  | [], s => (s, [])
  | p :: rest, s =>
    let r := fetchStart p s
    let r' := runFetchStarts rest r.1
    (r'.1, (if r.2 then [p] else []) ++ r'.2)

/-- The invalidation refetch performed on a completion event for `jobId`
(lines 148–166): `fetchArchive(c, 1, false, true)` for each target
category. -/
def invalidationRefetch (jobId : String) (s : BrowserState) :
    BrowserState × List FetchParams :=
  runFetchStarts ((invalidationTargets jobId).map (fun c => ⟨c, 1, false, true⟩)) s

lemma fetchStart_items (p : FetchParams) (s : BrowserState) :
    (fetchStart p s).1.items = s.items := by
  simp only [fetchStart]
  split
  · rfl
  · split <;> rfl

lemma fetchStart_currentPage (p : FetchParams) (s : BrowserState) :
    (fetchStart p s).1.currentPage = s.currentPage := by
  simp only [fetchStart]
  split
  · rfl
  · split <;> rfl

lemma fetchStart_hasMore (p : FetchParams) (s : BrowserState) :
    (fetchStart p s).1.hasMore = s.hasMore := by
  simp only [fetchStart]
  split
  · rfl
  · split <;> rfl

lemma fetchStart_of_inflight {p : FetchParams} {s : BrowserState}
    (h : s.fetching.get p.type = true) : fetchStart p s = (s, false) := by
  rw [fetchStart, if_pos h]

lemma fetchStart_fetching (p : FetchParams) (s : BrowserState)
    (h : s.fetching.get p.type = false) :
    (fetchStart p s).1.fetching = s.fetching.set p.type true := by
  rw [fetchStart, if_neg (by rw [h]; exact Bool.false_ne_true)]
  split <;> rfl

lemma fetchStart_issued (p : FetchParams) (s : BrowserState)
    (h : s.fetching.get p.type = false) : (fetchStart p s).2 = true := by
  rw [fetchStart, if_neg (by rw [h]; exact Bool.false_ne_true)]

lemma fetchStart_fetching_ne (p : FetchParams) (s : BrowserState) {c : ArchiveType}
    (hne : c ≠ p.type) : (fetchStart p s).1.fetching.get c = s.fetching.get c := by
  by_cases h : s.fetching.get p.type = true
  · rw [fetchStart_of_inflight h]
  · rw [fetchStart_fetching p s (Bool.eq_false_iff.mpr h), PerCat.get_set_ne _ hne]

/-- C7 — In-flight de-duplication: with no fetch outstanding for category
`c`, a first `fetchArchive` call for `c` issues its network request, and a
second call for `c` made while the first is still outstanding is a complete
no-op: it issues no request and leaves every piece of state exactly as the
first call left it. -/
theorem inflight_guard_dedup (s : BrowserState) (c : ArchiveType)
    (p₁ p₂ : Nat) (a₁ a₂ i₁ i₂ : Bool) (h : s.fetching.get c = false) :
    (fetchStart ⟨c, p₁, a₁, i₁⟩ s).2 = true
    ∧ (fetchStart ⟨c, p₂, a₂, i₂⟩ (fetchStart ⟨c, p₁, a₁, i₁⟩ s).1).2 = false
    ∧ (fetchStart ⟨c, p₂, a₂, i₂⟩ (fetchStart ⟨c, p₁, a₁, i₁⟩ s).1).1
        = (fetchStart ⟨c, p₁, a₁, i₁⟩ s).1 := by
  have hset : (fetchStart ⟨c, p₁, a₁, i₁⟩ s).1.fetching.get c = true := by
    rw [fetchStart_fetching _ _ h]
    exact PerCat.get_set_same _ _ _
  have hstop := fetchStart_of_inflight (p := ⟨c, p₂, a₂, i₂⟩) hset
  exact ⟨fetchStart_issued _ _ h, by rw [hstop], by rw [hstop]⟩

/-- The ArchiveBrowser's initial state (`useState` initializers,
lines 14–44). -/
def initialBrowserState : BrowserState where
  items := ⟨[], [], [], []⟩
  loading := false
  initialFetching := []
  errorMsg := none
  hasMore := ⟨true, true, true, true⟩
  currentPage := ⟨1, 1, 1, 1⟩
  fetching := ⟨false, false, false, false⟩

/-- Witness for C7 at the initial state and two page-2 rename fetches. -/
theorem inflight_guard_dedup_witness :
    (fetchStart ⟨.rename, 2, true, false⟩ initialBrowserState).2 = true
    ∧ (fetchStart ⟨.rename, 2, true, false⟩
        (fetchStart ⟨.rename, 2, true, false⟩ initialBrowserState).1).2 = false
    ∧ (fetchStart ⟨.rename, 2, true, false⟩
        (fetchStart ⟨.rename, 2, true, false⟩ initialBrowserState).1).1
        = (fetchStart ⟨.rename, 2, true, false⟩ initialBrowserState).1 :=
  inflight_guard_dedup initialBrowserState .rename 2 2 true true false false (by decide)

lemma fetchFinally_items (p : FetchParams) (s : BrowserState) :
    (fetchFinally p s).items = s.items := by
  simp only [fetchFinally]
  split <;> rfl

lemma fetchFinally_currentPage (p : FetchParams) (s : BrowserState) :
    (fetchFinally p s).currentPage = s.currentPage := by
  simp only [fetchFinally]
  split <;> rfl

lemma fetchFinally_hasMore (p : FetchParams) (s : BrowserState) :
    (fetchFinally p s).hasMore = s.hasMore := by
  simp only [fetchFinally]
  split <;> rfl

lemma fetchFinally_errorMsg (p : FetchParams) (s : BrowserState) :
    (fetchFinally p s).errorMsg = s.errorMsg := by
  simp only [fetchFinally]
  split <;> rfl

lemma fetchSuccess_items (p : FetchParams) (resp : ArchiveResponse) (s : BrowserState) :
    (fetchSuccess p resp s).items
      = s.items.set p.type
          (if p.append then s.items.get p.type ++ resp.items else resp.items) := by
  rw [fetchSuccess, fetchFinally_items]

lemma fetchSuccess_currentPage (p : FetchParams) (resp : ArchiveResponse)
    (s : BrowserState) : (fetchSuccess p resp s).currentPage = s.currentPage := by
  rw [fetchSuccess, fetchFinally_currentPage]

lemma fetchSuccess_hasMore (p : FetchParams) (resp : ArchiveResponse)
    (s : BrowserState) :
    (fetchSuccess p resp s).hasMore = s.hasMore.set p.type resp.has_more := by
  rw [fetchSuccess, fetchFinally_hasMore]

lemma runFetchStarts_items (ps : List FetchParams) (s : BrowserState) :
    (runFetchStarts ps s).1.items = s.items := by
  induction ps generalizing s with
  | nil => rfl
  | cons p rest ih => rw [runFetchStarts, ih, fetchStart_items]

lemma runFetchStarts_currentPage (ps : List FetchParams) (s : BrowserState) :
    (runFetchStarts ps s).1.currentPage = s.currentPage := by
  induction ps generalizing s with
  | nil => rfl
  | cons p rest ih => rw [runFetchStarts, ih, fetchStart_currentPage]

lemma runFetchStarts_hasMore (ps : List FetchParams) (s : BrowserState) :
    (runFetchStarts ps s).1.hasMore = s.hasMore := by
  induction ps generalizing s with
  | nil => rfl
  | cons p rest ih => rw [runFetchStarts, ih, fetchStart_hasMore]

lemma runFetchStarts_inflight (ps : List FetchParams) (s : BrowserState)
    (c : ArchiveType) (h : s.fetching.get c = true) :
    (runFetchStarts ps s).1.fetching.get c = true
    ∧ ∀ p ∈ (runFetchStarts ps s).2, p.type ≠ c := by
  induction ps generalizing s with
  | nil => exact ⟨h, by intro p hp; simp [runFetchStarts] at hp⟩
  | cons p rest ih =>
    by_cases hpc : p.type = c
    · have hguard : s.fetching.get p.type = true := by rw [hpc]; exact h
      rw [runFetchStarts, fetchStart_of_inflight hguard]
      have := ih s h
      refine ⟨this.1, ?_⟩
      intro q hq
      simp only [if_neg Bool.false_ne_true, List.nil_append] at hq
      exact this.2 q hq
    · have hkeep : (fetchStart p s).1.fetching.get c = s.fetching.get c :=
        fetchStart_fetching_ne p s (fun hEq => hpc hEq.symm)
      rw [runFetchStarts]
      have := ih (fetchStart p s).1 (by rw [hkeep]; exact h)
      refine ⟨this.1, ?_⟩
      intro q hq
      rw [List.mem_append] at hq
      rcases hq with hq | hq
      · have : q = p := by
          by_cases hb : (fetchStart p s).2 = true
          · rw [if_pos hb] at hq
            simpa using hq
          · rw [if_neg hb] at hq
            simp at hq
        rw [this]
        exact hpc
      · exact this.2 q hq

/-- C10 — Best-effort cross-invalidation: if a fetch for category `c` is
already in flight when a completion event for job `j` triggers the
invalidation refetch of `c`, the refetch is silently dropped by the
in-flight guard (no request for `c` is issued, nothing is queued), and the
items, page counter and `hasMore` of `c` end up exactly as the in-flight
fetch alone leaves them when its response arrives. -/
theorem invalidation_dropped_when_inflight (s : BrowserState) (j : String)
    (c : ArchiveType) (_hc : c ∈ invalidationTargets j)
    (h : s.fetching.get c = true)
    (page : Nat) (append isInitial : Bool) (resp : ArchiveResponse) :
    (∀ p ∈ (invalidationRefetch j s).2, p.type ≠ c)
    ∧ (invalidationRefetch j s).1.items.get c = s.items.get c
    ∧ (invalidationRefetch j s).1.currentPage.get c = s.currentPage.get c
    ∧ (invalidationRefetch j s).1.hasMore.get c = s.hasMore.get c
    ∧ (invalidationRefetch j s).1.fetching.get c = true
    ∧ (fetchSuccess ⟨c, page, append, isInitial⟩ resp
          (invalidationRefetch j s).1).items.get c
        = (fetchSuccess ⟨c, page, append, isInitial⟩ resp s).items.get c
    ∧ (fetchSuccess ⟨c, page, append, isInitial⟩ resp
          (invalidationRefetch j s).1).currentPage.get c
        = (fetchSuccess ⟨c, page, append, isInitial⟩ resp s).currentPage.get c
    ∧ (fetchSuccess ⟨c, page, append, isInitial⟩ resp
          (invalidationRefetch j s).1).hasMore.get c
        = (fetchSuccess ⟨c, page, append, isInitial⟩ resp s).hasMore.get c := by
  have hrun := runFetchStarts_inflight
    ((invalidationTargets j).map (fun c => ⟨c, 1, false, true⟩)) s c h
  have hi : (invalidationRefetch j s).1.items = s.items := runFetchStarts_items _ _
  have hp : (invalidationRefetch j s).1.currentPage = s.currentPage :=
    runFetchStarts_currentPage _ _
  have hm : (invalidationRefetch j s).1.hasMore = s.hasMore := runFetchStarts_hasMore _ _
  refine ⟨hrun.2, by rw [hi], by rw [hp], by rw [hm], hrun.1, ?_, ?_, ?_⟩
  · rw [fetchSuccess_items, fetchSuccess_items, hi]
  · rw [fetchSuccess_currentPage, fetchSuccess_currentPage, hp]
  · rw [fetchSuccess_hasMore, fetchSuccess_hasMore, hm]

/-- Witness for C10: a scan fetch in flight when the scan job's completion
event arrives. -/
theorem invalidation_dropped_when_inflight_witness :
    (∀ p ∈ (invalidationRefetch "scan"
        { initialBrowserState with fetching := ⟨false, false, true, false⟩ }).2,
      p.type ≠ ArchiveType.scan)
    ∧ (invalidationRefetch "scan"
        { initialBrowserState with fetching := ⟨false, false, true, false⟩ }).1.items.get
          .scan
        = ({ initialBrowserState with
              fetching := ⟨false, false, true, false⟩ } : BrowserState).items.get .scan
    ∧ (invalidationRefetch "scan"
        { initialBrowserState with fetching := ⟨false, false, true, false⟩ }).1.currentPage.get
          .scan
        = ({ initialBrowserState with
              fetching := ⟨false, false, true, false⟩ } : BrowserState).currentPage.get .scan
    ∧ (invalidationRefetch "scan"
        { initialBrowserState with fetching := ⟨false, false, true, false⟩ }).1.hasMore.get
          .scan
        = ({ initialBrowserState with
              fetching := ⟨false, false, true, false⟩ } : BrowserState).hasMore.get .scan
    ∧ (invalidationRefetch "scan"
        { initialBrowserState with fetching := ⟨false, false, true, false⟩ }).1.fetching.get
          .scan = true
    ∧ (fetchSuccess ⟨.scan, 2, true, false⟩ ⟨[4], 1, 2, 50, false⟩
          (invalidationRefetch "scan"
            { initialBrowserState with fetching := ⟨false, false, true, false⟩ }).1).items.get
          .scan
        = (fetchSuccess ⟨.scan, 2, true, false⟩ ⟨[4], 1, 2, 50, false⟩
            { initialBrowserState with fetching := ⟨false, false, true, false⟩ }).items.get
          .scan
    ∧ (fetchSuccess ⟨.scan, 2, true, false⟩ ⟨[4], 1, 2, 50, false⟩
          (invalidationRefetch "scan"
            { initialBrowserState with
                fetching := ⟨false, false, true, false⟩ }).1).currentPage.get .scan
        = (fetchSuccess ⟨.scan, 2, true, false⟩ ⟨[4], 1, 2, 50, false⟩
            { initialBrowserState with
                fetching := ⟨false, false, true, false⟩ }).currentPage.get .scan
    ∧ (fetchSuccess ⟨.scan, 2, true, false⟩ ⟨[4], 1, 2, 50, false⟩
          (invalidationRefetch "scan"
            { initialBrowserState with
                fetching := ⟨false, false, true, false⟩ }).1).hasMore.get .scan
        = (fetchSuccess ⟨.scan, 2, true, false⟩ ⟨[4], 1, 2, 50, false⟩
            { initialBrowserState with
                fetching := ⟨false, false, true, false⟩ }).hasMore.get .scan :=
  invalidation_dropped_when_inflight _ "scan" .scan (by decide) (by decide) 2 true false _

lemma fetchFinally_loading (p : FetchParams) (s : BrowserState) :
    (fetchFinally p s).loading = if p.isInitial then s.loading else false := by
  simp only [fetchFinally]
  split <;> simp_all

lemma fetchFinally_fetching (p : FetchParams) (s : BrowserState) :
    (fetchFinally p s).fetching = s.fetching.set p.type false := by
  simp only [fetchFinally]
  split <;> rfl

lemma fetchFailure_errorMsg (p : FetchParams) (msg : String) (s : BrowserState) :
    (fetchFailure p msg s).errorMsg = some msg := by
  rw [fetchFailure, fetchFinally_errorMsg]

lemma fetchFailure_items (p : FetchParams) (msg : String) (s : BrowserState) :
    (fetchFailure p msg s).items = s.items := by
  rw [fetchFailure, fetchFinally_items]

lemma fetchFailure_currentPage (p : FetchParams) (msg : String) (s : BrowserState) :
    (fetchFailure p msg s).currentPage = s.currentPage := by
  rw [fetchFailure, fetchFinally_currentPage]

lemma fetchFailure_hasMore (p : FetchParams) (msg : String) (s : BrowserState) :
    (fetchFailure p msg s).hasMore = s.hasMore := by
  rw [fetchFailure, fetchFinally_hasMore]

lemma fetchFailure_loading (p : FetchParams) (msg : String) (s : BrowserState) :
    (fetchFailure p msg s).loading = if p.isInitial then s.loading else false := by
  rw [fetchFailure, fetchFinally_loading]

lemma fetchFailure_fetching (p : FetchParams) (msg : String) (s : BrowserState) :
    (fetchFailure p msg s).fetching = s.fetching.set p.type false := by
  rw [fetchFailure, fetchFinally_fetching]

/-- Counterexample to C2 as stated: starting from the freshly activated
rename tab (page 1 loaded), a scroll trigger increments the page counter to
2 *before* issuing the page-2 request; when that request fails, the counter
is not rolled back, so the next scroll trigger requests page 3 — not the
same page 2 again.  The failed page is skipped. -/
theorem fetch_failure_counterexample :
    (scrollStep .rename initialBrowserState).2 = [⟨.rename, 2, true, false⟩]
    ∧ (fetchFailure ⟨.rename, 2, true, false⟩ "Failed to fetch archive"
        (scrollStep .rename initialBrowserState).1).errorMsg
        = some "Failed to fetch archive"
    ∧ (fetchFailure ⟨.rename, 2, true, false⟩ "Failed to fetch archive"
        (scrollStep .rename initialBrowserState).1).hasMore.get .rename = true
    ∧ (scrollStep .rename (fetchFailure ⟨.rename, 2, true, false⟩
          "Failed to fetch archive"
          (scrollStep .rename initialBrowserState).1)).2.map FetchParams.page = [3]
    ∧ ¬ ((scrollStep .rename (fetchFailure ⟨.rename, 2, true, false⟩
          "Failed to fetch archive"
          (scrollStep .rename initialBrowserState).1)).2.map FetchParams.page = [2]) := by
  refine ⟨by decide, by decide, by decide, by decide, by decide⟩

lemma scroll_rename_step (s : BrowserState) (hload : s.loading = false)
    (hm : s.hasMore.get .rename = true) (hf : s.fetching.get .rename = false) :
    (scrollStep .rename s).2
        = [⟨.rename, s.currentPage.get .rename + 1, true, false⟩]
    ∧ (scrollStep .rename s).1.items = s.items
    ∧ (scrollStep .rename s).1.hasMore = s.hasMore
    ∧ (scrollStep .rename s).1.currentPage
        = s.currentPage.set .rename (s.currentPage.get .rename + 1)
    ∧ (scrollStep .rename s).1.fetching = s.fetching.set .rename true := by
  refine ⟨?_, ?_, ?_, ?_, ?_⟩ <;>
    simp [scrollStep, hload, hm, hf, fetchStart_issued, fetchStart_items,
      fetchStart_hasMore, fetchStart_currentPage, fetchStart_fetching]

lemma scroll_issues_step (s : BrowserState) (hload : s.loading = false)
    (hm : s.hasMore.get .error = true) (hf : s.fetching.get .error = false) :
    (scrollStep .issues s).2
        = [⟨.error, s.currentPage.get .error + 1, true, false⟩]
    ∧ (scrollStep .issues s).1.items = s.items
    ∧ (scrollStep .issues s).1.hasMore = s.hasMore
    ∧ (scrollStep .issues s).1.currentPage
        = s.currentPage.set .error (s.currentPage.get .error + 1)
    ∧ (scrollStep .issues s).1.fetching = s.fetching.set .error true := by
  refine ⟨?_, ?_, ?_, ?_, ?_⟩ <;>
    simp [scrollStep, hload, hm, hf, fetchStart_issued, fetchStart_items,
      fetchStart_hasMore, fetchStart_currentPage, fetchStart_fetching]

lemma scroll_jobs_step_ff (s : BrowserState) (hload : s.loading = false)
    (hmI : s.hasMore.get .index = true) (hmS : s.hasMore.get .scan = true)
    (hfI : s.fetching.get .index = false) (hfS : s.fetching.get .scan = false) :
    (scrollStep .jobs s).2
        = [⟨.index, s.currentPage.get .index + 1, true, false⟩,
           ⟨.scan, s.currentPage.get .scan + 1, true, false⟩]
    ∧ (scrollStep .jobs s).1.items = s.items
    ∧ (scrollStep .jobs s).1.hasMore = s.hasMore
    ∧ (scrollStep .jobs s).1.currentPage
        = (s.currentPage.set .index (s.currentPage.get .index + 1)).set .scan
            (s.currentPage.get .scan + 1)
    ∧ (scrollStep .jobs s).1.fetching = (s.fetching.set .index true).set .scan true := by
  refine ⟨?_, ?_, ?_, ?_, ?_⟩ <;>
    simp [scrollStep, hload, hmI, hmS, hfI, hfS, fetchStart_issued, fetchStart_items,
      fetchStart_hasMore, fetchStart_currentPage, fetchStart_fetching,
      PerCat.get_set_ne, PerCat.get_set_same]

lemma scroll_jobs_step_tf (s : BrowserState) (hload : s.loading = false)
    (hmS : s.hasMore.get .scan = true)
    (hfI : s.fetching.get .index = true) (hfS : s.fetching.get .scan = false) :
    (scrollStep .jobs s).2
        = [⟨.scan, s.currentPage.get .scan + 1, true, false⟩]
    ∧ (scrollStep .jobs s).1.currentPage
        = s.currentPage.set .scan (s.currentPage.get .scan + 1) := by
  refine ⟨?_, ?_⟩ <;>
    simp [scrollStep, hload, hmS, hfI, hfS, fetchStart_issued,
      fetchStart_currentPage, PerCat.get_set_ne, PerCat.get_set_same]

lemma scroll_jobs_step_ft (s : BrowserState) (hload : s.loading = false)
    (hmI : s.hasMore.get .index = true)
    (hfI : s.fetching.get .index = false) (hfS : s.fetching.get .scan = true) :
    (scrollStep .jobs s).2
        = [⟨.index, s.currentPage.get .index + 1, true, false⟩]
    ∧ (scrollStep .jobs s).1.currentPage
        = s.currentPage.set .index (s.currentPage.get .index + 1) := by
  refine ⟨?_, ?_⟩ <;>
    simp [scrollStep, hload, hmI, hfI, hfS, fetchStart_issued,
      fetchStart_currentPage, fetchStart_fetching,
      PerCat.get_set_ne, PerCat.get_set_same]

/-- C2, amended — On a scroll trigger with `hasMore` set and no fetch in
flight, the loader requests the next page `p = currentPage + 1` for each
category of the active tab, incrementing the page counter *before* the
fetch.  If that fetch fails, the category-scoped error is surfaced and
`hasMore`, the accumulated items and the (already incremented) page counter
are left unchanged by the fetch itself — but because the increment preceded
the fetch, the next scroll trigger requests page `p + 1`, skipping the
failed page rather than retrying it. -/
theorem fetch_failure_amended (s : BrowserState) (tab : Tab) (msg : String)
    (hload : s.loading = false)
    (hm : ∀ c, s.hasMore.get c = true)
    (hf : ∀ c, s.fetching.get c = false) :
    (scrollStep tab s).2.map FetchParams.type = tabCats tab
    ∧ (∀ p ∈ (scrollStep tab s).2,
        p.page = s.currentPage.get p.type + 1 ∧ p.append = true ∧ p.isInitial = false)
    ∧ (∀ p ∈ (scrollStep tab s).2,
        (fetchFailure p msg (scrollStep tab s).1).errorMsg = some msg
        ∧ (fetchFailure p msg (scrollStep tab s).1).hasMore.get p.type
            = s.hasMore.get p.type
        ∧ (fetchFailure p msg (scrollStep tab s).1).items.get p.type
            = s.items.get p.type
        ∧ (fetchFailure p msg (scrollStep tab s).1).currentPage.get p.type
            = s.currentPage.get p.type + 1
        ∧ p.type ∈ (scrollStep tab
            (fetchFailure p msg (scrollStep tab s).1)).2.map FetchParams.type
        ∧ ∀ q ∈ (scrollStep tab (fetchFailure p msg (scrollStep tab s).1)).2,
            q.type = p.type → q.page = s.currentPage.get p.type + 2) := by
  cases tab with
  | rename =>
    obtain ⟨hreq, hit, hhm, hcp, hft⟩ :=
      scroll_rename_step s hload (hm .rename) (hf .rename)
    refine ⟨by rw [hreq]; rfl, ?_, ?_⟩
    · rw [hreq]
      intro p hp
      rw [List.mem_singleton] at hp
      subst hp
      exact ⟨rfl, rfl, rfl⟩
    · rw [hreq]
      intro p hp
      rw [List.mem_singleton] at hp
      subst hp
      obtain ⟨hreq2, _, _, hcp2, _⟩ := scroll_rename_step
        (fetchFailure ⟨.rename, s.currentPage.get .rename + 1, true, false⟩ msg
          (scrollStep .rename s).1)
        (by rw [fetchFailure_loading]; simp)
        (by rw [fetchFailure_hasMore, hhm]; exact hm .rename)
        (by rw [fetchFailure_fetching]; exact PerCat.get_set_same _ _ _)
      refine ⟨fetchFailure_errorMsg _ _ _, ?_, ?_, ?_, ?_, ?_⟩
      · rw [fetchFailure_hasMore, hhm]
      · rw [fetchFailure_items, hit]
      · rw [fetchFailure_currentPage, hcp, PerCat.get_set_same]
      · rw [hreq2]
        simp
      · intro q hq hqt
        rw [hreq2, List.mem_singleton] at hq
        subst hq
        show (fetchFailure ⟨.rename, s.currentPage.get .rename + 1, true, false⟩ msg
          (scrollStep .rename s).1).currentPage.get .rename + 1
            = s.currentPage.get .rename + 2
        rw [fetchFailure_currentPage, hcp, PerCat.get_set_same]
  | issues =>
    obtain ⟨hreq, hit, hhm, hcp, hft⟩ :=
      scroll_issues_step s hload (hm .error) (hf .error)
    refine ⟨by rw [hreq]; rfl, ?_, ?_⟩
    · rw [hreq]
      intro p hp
      rw [List.mem_singleton] at hp
      subst hp
      exact ⟨rfl, rfl, rfl⟩
    · rw [hreq]
      intro p hp
      rw [List.mem_singleton] at hp
      subst hp
      obtain ⟨hreq2, _, _, hcp2, _⟩ := scroll_issues_step
        (fetchFailure ⟨.error, s.currentPage.get .error + 1, true, false⟩ msg
          (scrollStep .issues s).1)
        (by rw [fetchFailure_loading]; simp)
        (by rw [fetchFailure_hasMore, hhm]; exact hm .error)
        (by rw [fetchFailure_fetching]; exact PerCat.get_set_same _ _ _)
      refine ⟨fetchFailure_errorMsg _ _ _, ?_, ?_, ?_, ?_, ?_⟩
      · rw [fetchFailure_hasMore, hhm]
      · rw [fetchFailure_items, hit]
      · rw [fetchFailure_currentPage, hcp, PerCat.get_set_same]
      · rw [hreq2]
        simp
      · intro q hq hqt
        rw [hreq2, List.mem_singleton] at hq
        subst hq
        show (fetchFailure ⟨.error, s.currentPage.get .error + 1, true, false⟩ msg
          (scrollStep .issues s).1).currentPage.get .error + 1
            = s.currentPage.get .error + 2
        rw [fetchFailure_currentPage, hcp, PerCat.get_set_same]
  | jobs =>
    obtain ⟨hreq, hit, hhm, hcp, hft⟩ :=
      scroll_jobs_step_ff s hload (hm .index) (hm .scan) (hf .index) (hf .scan)
    refine ⟨by rw [hreq]; rfl, ?_, ?_⟩
    · rw [hreq]
      intro p hp
      rcases List.mem_cons.mp hp with hp | hp
      · subst hp
        exact ⟨rfl, rfl, rfl⟩
      · rw [List.mem_singleton] at hp
        subst hp
        exact ⟨rfl, rfl, rfl⟩
    · rw [hreq]
      intro p hp
      rcases List.mem_cons.mp hp with hp | hp
      · subst hp
        obtain ⟨hreq2, hcp2⟩ := scroll_jobs_step_ft
          (fetchFailure ⟨.index, s.currentPage.get .index + 1, true, false⟩ msg
            (scrollStep .jobs s).1)
          (by rw [fetchFailure_loading]; simp)
          (by rw [fetchFailure_hasMore, hhm]; exact hm .index)
          (by rw [fetchFailure_fetching]; exact PerCat.get_set_same _ _ _)
          (by
            rw [fetchFailure_fetching, hft,
              PerCat.get_set_ne _ (show ArchiveType.scan ≠ .index by decide),
              PerCat.get_set_same])
        refine ⟨fetchFailure_errorMsg _ _ _, ?_, ?_, ?_, ?_, ?_⟩
        · rw [fetchFailure_hasMore, hhm]
        · rw [fetchFailure_items, hit]
        · rw [fetchFailure_currentPage, hcp,
            PerCat.get_set_ne _ (show ArchiveType.index ≠ .scan by decide),
            PerCat.get_set_same]
        · rw [hreq2]
          simp
        · intro q hq hqt
          rw [hreq2, List.mem_singleton] at hq
          subst hq
          show (fetchFailure ⟨.index, s.currentPage.get .index + 1, true, false⟩ msg
            (scrollStep .jobs s).1).currentPage.get .index + 1
              = s.currentPage.get .index + 2
          rw [fetchFailure_currentPage, hcp,
            PerCat.get_set_ne _ (show ArchiveType.index ≠ .scan by decide),
            PerCat.get_set_same]
      · rw [List.mem_singleton] at hp
        subst hp
        obtain ⟨hreq2, hcp2⟩ := scroll_jobs_step_tf
          (fetchFailure ⟨.scan, s.currentPage.get .scan + 1, true, false⟩ msg
            (scrollStep .jobs s).1)
          (by rw [fetchFailure_loading]; simp)
          (by rw [fetchFailure_hasMore, hhm]; exact hm .scan)
          (by
            rw [fetchFailure_fetching, hft,
              PerCat.get_set_ne _ (show ArchiveType.index ≠ .scan by decide),
              PerCat.get_set_ne _ (show ArchiveType.index ≠ .scan by decide),
              PerCat.get_set_same])
          (by rw [fetchFailure_fetching]; exact PerCat.get_set_same _ _ _)
        refine ⟨fetchFailure_errorMsg _ _ _, ?_, ?_, ?_, ?_, ?_⟩
        · rw [fetchFailure_hasMore, hhm]
        · rw [fetchFailure_items, hit]
        · rw [fetchFailure_currentPage, hcp, PerCat.get_set_same]
        · rw [hreq2]
          simp
        · intro q hq hqt
          rw [hreq2, List.mem_singleton] at hq
          subst hq
          show (fetchFailure ⟨.scan, s.currentPage.get .scan + 1, true, false⟩ msg
            (scrollStep .jobs s).1).currentPage.get .scan + 1
              = s.currentPage.get .scan + 2
          rw [fetchFailure_currentPage, hcp, PerCat.get_set_same]

/-- Witness for C2's amended theorem: the rename tab at the initial state
issues exactly the page-2 rename request. -/
theorem fetch_failure_amended_witness :
    (scrollStep .rename initialBrowserState).2.map FetchParams.type
      = tabCats .rename :=
  (fetch_failure_amended initialBrowserState .rename "Failed to fetch archive" rfl
    (fun c => by cases c <;> rfl) (fun c => by cases c <;> rfl)).1

/-- Counterexample to C3 as stated: with the rename category on page 3 and
accumulated items present, the completion event for the index job triggers
the invalidation refetch, but no reset happens — the rename page counter
stays 3 (not 1) and the accumulated items are not cleared, even after the
page-1 response arrives. -/
theorem invalidation_no_reset_counterexample :
    (invalidationRefetch "index"
      { initialBrowserState with
          items := ⟨[7, 8], [], [], []⟩,
          currentPage := ⟨3, 1, 1, 1⟩ }).1.currentPage.get .rename = 3
    ∧ (invalidationRefetch "index"
      { initialBrowserState with
          items := ⟨[7, 8], [], [], []⟩,
          currentPage := ⟨3, 1, 1, 1⟩ }).1.items.get .rename = [7, 8]
    ∧ (fetchSuccess ⟨.rename, 1, false, true⟩ ⟨[9], 1, 1, 50, true⟩
        (invalidationRefetch "index"
          { initialBrowserState with
              items := ⟨[7, 8], [], [], []⟩,
              currentPage := ⟨3, 1, 1, 1⟩ }).1).currentPage.get .rename = 3
    ∧ ¬ ((invalidationRefetch "index"
          { initialBrowserState with
              items := ⟨[7, 8], [], [], []⟩,
              currentPage := ⟨3, 1, 1, 1⟩ }).1.currentPage.get .rename = 1
        ∧ (invalidationRefetch "index"
          { initialBrowserState with
              items := ⟨[7, 8], [], [], []⟩,
              currentPage := ⟨3, 1, 1, 1⟩ }).1.items.get .rename = []) := by
  refine ⟨by decide, by decide, by decide, by decide⟩

lemma runFetchStarts_requests (ps : List FetchParams) (s : BrowserState)
    (hnd : (ps.map FetchParams.type).Nodup)
    (h : ∀ p ∈ ps, s.fetching.get p.type = false) :
    (runFetchStarts ps s).2 = ps := by
  induction ps generalizing s with
  | nil => rfl
  | cons p rest ih =>
    rw [runFetchStarts]
    have hissued := fetchStart_issued p s (h p (List.mem_cons_self p rest))
    have htail : (runFetchStarts rest (fetchStart p s).1).2 = rest := by
      refine ih (fetchStart p s).1 (List.Nodup.of_cons hnd) ?_
      intro q hq
      have hne : q.type ≠ p.type := by
        intro hEq
        have hpmem : p.type ∈ rest.map FetchParams.type :=
          hEq ▸ List.mem_map_of_mem FetchParams.type hq
        exact (List.nodup_cons.mp hnd).1 hpmem
      rw [fetchStart_fetching_ne p s hne]
      exact h q (List.mem_cons_of_mem _ hq)
    rw [if_pos hissued, htail]
    rfl

lemma invalidationTargets_type_nodup (j : String) :
    ((invalidationTargets j).map
      (fun c => (⟨c, 1, false, true⟩ : FetchParams)) |>.map FetchParams.type).Nodup := by
  rw [List.map_map]
  have hcomp : FetchParams.type ∘ (fun c => (⟨c, 1, false, true⟩ : FetchParams)) = id := rfl
  rw [hcomp, List.map_id]
  by_cases h1 : j = "index"
  · rw [invalidationTargets, if_pos h1]
    decide
  · rw [invalidationTargets, if_neg h1]
    by_cases h2 : (strStartsWith j "scan" || j == "scan") = true
    · rw [if_pos h2]
      decide
    · rw [if_neg h2]
      decide

/-- C3, amended — On a completion event for job id `j` the subscriber
refetches page 1 in replace mode for: the `index` category iff `j` is the
index job, the `scan` category iff `j` is a scan job, and always the
`rename` and `error` categories.  But no reset is performed: the page
counters, accumulated items and `hasMore` flags are left untouched at
invalidation time, and when a page-1 response arrives it replaces that
category's items and sets `hasMore` from the response while the page counter
still keeps its old value (it is not reset to 1). -/
theorem invalidation_refetch_amended (s : BrowserState) (j : String)
    (hf : ∀ c, s.fetching.get c = false) :
    (invalidationRefetch j s).2
        = (invalidationTargets j).map (fun c => ⟨c, 1, false, true⟩)
    ∧ (invalidationRefetch j s).1.items = s.items
    ∧ (invalidationRefetch j s).1.currentPage = s.currentPage
    ∧ (invalidationRefetch j s).1.hasMore = s.hasMore
    ∧ ∀ p ∈ (invalidationRefetch j s).2, ∀ resp : ArchiveResponse,
        (fetchSuccess p resp (invalidationRefetch j s).1).items.get p.type = resp.items
        ∧ (fetchSuccess p resp (invalidationRefetch j s).1).hasMore.get p.type
            = resp.has_more
        ∧ (fetchSuccess p resp (invalidationRefetch j s).1).currentPage.get p.type
            = s.currentPage.get p.type := by
  have hreq : (invalidationRefetch j s).2
      = (invalidationTargets j).map (fun c => ⟨c, 1, false, true⟩) := by
    refine runFetchStarts_requests _ _ (invalidationTargets_type_nodup j) ?_
    intro p hp
    obtain ⟨c, _, rfl⟩ := List.mem_map.mp hp
    exact hf c
  have hi : (invalidationRefetch j s).1.items = s.items := runFetchStarts_items _ _
  have hp : (invalidationRefetch j s).1.currentPage = s.currentPage :=
    runFetchStarts_currentPage _ _
  have hm : (invalidationRefetch j s).1.hasMore = s.hasMore := runFetchStarts_hasMore _ _
  refine ⟨hreq, hi, hp, hm, ?_⟩
  intro q hq resp
  rw [hreq] at hq
  obtain ⟨c, _, rfl⟩ := List.mem_map.mp hq
  refine ⟨?_, ?_, ?_⟩
  · rw [fetchSuccess_items, hi, PerCat.get_set_same]
    rfl
  · rw [fetchSuccess_hasMore, PerCat.get_set_same]
  · rw [fetchSuccess_currentPage, hp]

/-- Witness for C3's amended theorem: an index-job completion at the
counterexample's state requests exactly page-1 refetches of the index,
rename and error categories. -/
theorem invalidation_refetch_amended_witness :
    (invalidationRefetch "index"
      { initialBrowserState with
          items := ⟨[7, 8], [], [], []⟩,
          currentPage := ⟨3, 1, 1, 1⟩ }).2
      = (invalidationTargets "index").map (fun c => ⟨c, 1, false, true⟩) :=
  (invalidation_refetch_amended
    { initialBrowserState with
        items := ⟨[7, 8], [], [], []⟩,
        currentPage := ⟨3, 1, 1, 1⟩ } "index" (fun c => by cases c <;> rfl)).1

/-!
## ActivityBar: the minimum-display-time stabilizer

Embedding of the debounce effect of `src/unnamed/part_001` (lines 57–92):
`displayed` is `displayedProgress`, `lastUpdate` is `lastUpdateTimeRef`, and
`timer` is the pending `updateTimerRef` together with its scheduled fire
time and the feed captured by the timeout closure.
-/

/-- `MIN_DISPLAY_TIME = 1500` (part_001 line 8). -/
def MIN_DISPLAY_TIME : Nat := 1500

/-- State of the debounce effect. -/
structure StabState where
  displayed : Feed
  lastUpdate : Nat
  timer : Option (Nat × Feed)
deriving DecidableEq, Repr

/-- One run of the debounce effect for feed `f` (the `progress` dependency)
at time `now`; any timer pending from the previous run has been cleared by
the effect cleanup / the explicit `clearTimeout`.  If `displayedProgress`
is empty and the feed non-empty, update immediately; else if
`MIN_DISPLAY_TIME` has elapsed since the last update, update immediately;
else schedule the deferred update after the remaining time. -/
def stabPush (minDT : Nat) (s : StabState) (f : Feed) (now : Nat) : StabState :=
  if s.displayed.isEmpty && !f.isEmpty then
    { displayed := f, lastUpdate := now, timer := none }
  else if minDT ≤ now - s.lastUpdate then
    { displayed := f, lastUpdate := now, timer := none }
  else
    { s with timer := some (now + (minDT - (now - s.lastUpdate)), f) }

/-- The timeout callback (lines 81–84): display the captured feed and stamp
the update time with the fire time. -/
def stabFire (s : StabState) : StabState :=
  match s.timer with
  | some tf => { displayed := tf.2, lastUpdate := tf.1, timer := none }
  | none => s

/-- Counterexample to C6 as stated: after the first non-empty feed (pushed
at 0) and an empty feed displayed at 1500, a non-empty feed pushed at 1510 —
only 10 ms after the last displayed update and *not* the very first
non-empty feed — is displayed immediately with no deferred update, because
the immediate branch applies whenever the displayed feed is empty.  The
displayed value thus changes twice (at 1500 and at 1510) inside one
1500 ms window. -/
theorem display_stabilizer_counterexample :
    stabPush 1500 ⟨[], 0, none⟩
        [("scan-1", ⟨some "running", none, none, none, none⟩)] 0
      = ⟨[("scan-1", ⟨some "running", none, none, none, none⟩)], 0, none⟩
    ∧ stabPush 1500 ⟨[("scan-1", ⟨some "running", none, none, none, none⟩)], 0, none⟩
        [] 1500
      = ⟨[], 1500, none⟩
    ∧ stabPush 1500 ⟨[], 1500, none⟩
        [("index", ⟨some "running", none, none, none, none⟩)] 1510
      = ⟨[("index", ⟨some "running", none, none, none, none⟩)], 1510, none⟩
    ∧ 1510 - 1500 < 1500
    ∧ ([("index", ⟨some "running", none, none, none, none⟩)] : Feed) ≠ [] := by
  refine ⟨by decide, by decide, by decide, by decide, by decide⟩

/-- C6, amended — Per-push behaviour of the stabilizer: a non-empty feed
arriving while the *displayed* feed is empty is shown immediately with no
deferral — this covers the very first non-empty feed but applies every time
the display is empty, not only the first.  Otherwise, if at least
`minDisplayTime` has elapsed since the last displayed update the feed is
shown immediately and the timer resets; if not, a deferred update is
scheduled for exactly the remaining time (firing at `lastUpdate + minDT`),
replacing any previously scheduled update.  Outside the empty-display
branch the displayed value changes only when the window has elapsed, any
pending timer fires exactly at the window boundary carrying the last pushed
feed, and once the window closes the displayed value equals the last pushed
feed. -/
theorem display_stabilizer_amended (minDT : Nat) (s : StabState) (f : Feed)
    (now : Nat) (hmono : s.lastUpdate ≤ now)
    (hinv : ∀ t g, s.timer = some (t, g) → t = s.lastUpdate + minDT) :
    ((s.displayed.isEmpty = true ∧ f.isEmpty = false) →
        stabPush minDT s f now = ⟨f, now, none⟩)
    ∧ (¬ (s.displayed.isEmpty = true ∧ f.isEmpty = false) →
        minDT ≤ now - s.lastUpdate →
        stabPush minDT s f now = ⟨f, now, none⟩)
    ∧ (¬ (s.displayed.isEmpty = true ∧ f.isEmpty = false) →
        now - s.lastUpdate < minDT →
        stabPush minDT s f now
          = ⟨s.displayed, s.lastUpdate, some (s.lastUpdate + minDT, f)⟩)
    ∧ (∀ t g, (stabPush minDT s f now).timer = some (t, g) →
        t = (stabPush minDT s f now).lastUpdate + minDT ∧ g = f)
    ∧ ((stabPush minDT s f now).displayed ≠ s.displayed →
        ¬ (s.displayed.isEmpty = true ∧ f.isEmpty = false) →
        s.lastUpdate + minDT ≤ now)
    ∧ (((stabPush minDT s f now).timer = none ∧ (stabPush minDT s f now).displayed = f)
        ∨ ((stabPush minDT s f now).timer = some (s.lastUpdate + minDT, f)
            ∧ stabFire (stabPush minDT s f now) = ⟨f, s.lastUpdate + minDT, none⟩))
    ∧ (∀ t g, s.timer = some (t, g) →
        stabFire s = ⟨g, t, none⟩ ∧ s.lastUpdate + minDT ≤ t) := by
  have hbiff : (s.displayed.isEmpty && !f.isEmpty) = true ↔
      (s.displayed.isEmpty = true ∧ f.isEmpty = false) := by
    simp [Bool.and_eq_true]
  have hfire : ∀ t g, s.timer = some (t, g) →
      stabFire s = ⟨g, t, none⟩ ∧ s.lastUpdate + minDT ≤ t := by
    intro t g ht
    refine ⟨by simp [stabFire, ht], (hinv t g ht).ge⟩
  by_cases hb1 : (s.displayed.isEmpty && !f.isEmpty) = true
  · have hpush : stabPush minDT s f now = ⟨f, now, none⟩ := by
      rw [stabPush, if_pos hb1]
    refine ⟨fun _ => hpush, fun _ _ => hpush, ?_, ?_, ?_, ?_, hfire⟩
    · intro hc _
      exact absurd (hbiff.mp hb1) hc
    · intro t g ht
      rw [hpush] at ht
      exact absurd ht (by simp)
    · intro _ hc
      exact absurd (hbiff.mp hb1) hc
    · exact Or.inl ⟨by rw [hpush], by rw [hpush]⟩
  · by_cases hb2 : minDT ≤ now - s.lastUpdate
    · have hpush : stabPush minDT s f now = ⟨f, now, none⟩ := by
        rw [stabPush, if_neg hb1, if_pos hb2]
      refine ⟨fun _ => hpush, fun _ _ => hpush, ?_, ?_, ?_, ?_, hfire⟩
      · intro _ hlt
        exact absurd hb2 (by omega)
      · intro t g ht
        rw [hpush] at ht
        exact absurd ht (by simp)
      · intro _ _
        omega
      · exact Or.inl ⟨by rw [hpush], by rw [hpush]⟩
    · have helapsed : now - s.lastUpdate < minDT := by omega
      have htime : now + (minDT - (now - s.lastUpdate)) = s.lastUpdate + minDT := by
        omega
      have hpush : stabPush minDT s f now
          = ⟨s.displayed, s.lastUpdate, some (s.lastUpdate + minDT, f)⟩ := by
        rw [stabPush, if_neg hb1, if_neg hb2, htime]
      refine ⟨?_, ?_, fun _ _ => hpush, ?_, ?_, ?_, hfire⟩
      · intro hc
        exact absurd (hbiff.mpr hc) hb1
      · intro _ hle
        exact absurd hle hb2
      · intro t g ht
        rw [hpush] at ht
        simp only [Option.some.injEq, Prod.mk.injEq] at ht
        rw [hpush]
        exact ⟨ht.1.symm, ht.2.symm⟩
      · intro hne _
        rw [hpush] at hne
        exact absurd rfl hne
      · refine Or.inr ⟨by rw [hpush], ?_⟩
        rw [hpush]
        simp [stabFire]

/-- Witness for C6's amended theorem: a feed pushed 100 ms after the last
displayed update is deferred until exactly the 1500 ms window boundary. -/
theorem display_stabilizer_amended_witness :
    stabPush 1500 ⟨[("scan-1", ⟨some "running", none, none, none, none⟩)], 0, none⟩
        [("index", ⟨some "running", none, none, none, none⟩)] 100
      = ⟨[("scan-1", ⟨some "running", none, none, none, none⟩)], 0,
          some (0 + 1500, [("index", ⟨some "running", none, none, none, none⟩)])⟩ :=
  (display_stabilizer_amended 1500
    ⟨[("scan-1", ⟨some "running", none, none, none, none⟩)], 0, none⟩
    [("index", ⟨some "running", none, none, none, none⟩)] 100
    (by decide) (fun t g h => nomatch h)).2.2.1 (by decide) (by decide)

/-!
## ProgressContext: subscriber notification and the long-poll loop

`notifySubscribers` (ProgressContext.tsx lines 33–41) iterates the
subscriber `Set` with `forEach`, passing every callback the same
`(current, previous)` pair.  JS `Set.forEach` visits entries in insertion
order; an entry deleted (unsubscribed) before being visited is skipped, and
entries already visited are never revisited.  Subscribers are modelled by
ids with `removes i` the set of ids callback `i` unsubscribes when invoked.
-/

/-- The `forEach` round: `removed` accumulates the deletions performed by the
callbacks invoked so far; an id already removed is skipped, otherwise it is
invoked and its own removals take effect for the rest of the round. -/
def notifyRound (removes : Nat → List Nat) : List Nat → List Nat → List Nat
  | [], _ => []
  | i :: rest, removed =>
    if i ∈ removed then notifyRound removes rest removed
    else i :: notifyRound removes rest (removed ++ removes i)

/-- The deliveries of one notification round: each invoked subscriber
receives the same `(current, previous)` pair. -/
def notifyDeliveries (cur prev : Feed) (removes : Nat → List Nat)
    (subs : List Nat) : List (Nat × Feed × Feed) :=
  (notifyRound removes subs []).map (fun i => (i, cur, prev))

lemma notifyRound_sublist (removes : Nat → List Nat) (subs removed : List Nat) :
    List.Sublist (notifyRound removes subs removed) subs := by
  induction subs generalizing removed with
  | nil => exact List.Sublist.refl _
  | cons i rest ih =>
    rw [notifyRound]
    split
    · exact (ih removed).trans (List.sublist_cons_self i rest)
    · exact List.Sublist.cons₂ i (ih (removed ++ removes i))

lemma notifyRound_count_one (removes : Nat → List Nat) (j : Nat)
    (hsafe : ∀ i, i ≠ j → j ∉ removes i) :
    ∀ subs removed, subs.Nodup → j ∈ subs → j ∉ removed →
      (notifyRound removes subs removed).count j = 1 := by
  intro subs
  induction subs with
  | nil =>
    intro removed _ hj _
    exact absurd hj (List.not_mem_nil j)
  | cons i rest ih =>
    intro removed hnd hj hnr
    have hirest : i ∉ rest := (List.nodup_cons.mp hnd).1
    have hndrest : rest.Nodup := (List.nodup_cons.mp hnd).2
    rw [notifyRound]
    by_cases hij : i = j
    · subst hij
      rw [if_neg hnr]
      have hzero : (notifyRound removes rest (removed ++ removes i)).count i = 0 :=
        List.count_eq_zero.mpr
          (fun hm => hirest ((notifyRound_sublist removes rest _).subset hm))
      rw [List.count_cons, hzero]
      simp
    · have hjrest : j ∈ rest := by
        rcases List.mem_cons.mp hj with h | h
        · exact absurd h.symm hij
        · exact h
      split
      · exact ih removed hndrest hjrest hnr
      · rw [List.count_cons]
        have hbeq : (i == j) = false := beq_eq_false_iff_ne.mpr hij
        rw [hbeq]
        have hnr2 : j ∉ removed ++ removes i := by
          rw [List.mem_append]
          rintro (h | h)
          · exact hnr h
          · exact hsafe i hij h
        rw [ih (removed ++ removes i) hndrest hjrest hnr2]
        simp

/-- C8 — Unsubscribing during a notification round neither skips nor
duplicates deliveries: a subscriber `j` present in the set that no *other*
callback unsubscribes mid-round (self-unsubscription is allowed) is invoked
exactly once; no subscriber is ever invoked twice in a round; and every
delivery of the round carries the same `(current, previous)` pair. -/
theorem subscriber_notification_exact (cur prev : Feed) (removes : Nat → List Nat)
    (subs : List Nat) (hnd : subs.Nodup) (j : Nat) (hj : j ∈ subs)
    (hsafe : ∀ i, i ≠ j → j ∉ removes i) :
    (notifyRound removes subs []).count j = 1
    ∧ (∀ i : Nat, (notifyRound removes subs []).count i ≤ 1)
    ∧ (∀ x ∈ notifyDeliveries cur prev removes subs, x.2.1 = cur ∧ x.2.2 = prev)
    ∧ (j, cur, prev) ∈ notifyDeliveries cur prev removes subs := by
  have hone := notifyRound_count_one removes j hsafe subs [] hnd hj (List.not_mem_nil j)
  refine ⟨hone, ?_, ?_, ?_⟩
  · exact List.nodup_iff_count_le_one.mp ((notifyRound_sublist removes subs []).nodup hnd)
  · intro x hx
    obtain ⟨i, _, rfl⟩ := List.mem_map.mp hx
    exact ⟨rfl, rfl⟩
  · have hmem : j ∈ notifyRound removes subs [] := by
      rw [← List.count_pos_iff]
      omega
    exact List.mem_map_of_mem _ hmem

/-- Witness for C8: three subscribers, the first unsubscribing the third
mid-round; subscriber 1 is still delivered exactly once. -/
theorem subscriber_notification_exact_witness :
    (notifyRound (fun i => if i = 0 then [2] else []) [0, 1, 2] []).count 1 = 1
    ∧ (∀ i : Nat,
        (notifyRound (fun i => if i = 0 then [2] else []) [0, 1, 2] []).count i ≤ 1)
    ∧ (∀ x ∈ notifyDeliveries [] [] (fun i => if i = 0 then [2] else []) [0, 1, 2],
        x.2.1 = [] ∧ x.2.2 = [])
    ∧ ((1, [], []) : Nat × Feed × Feed)
        ∈ notifyDeliveries [] [] (fun i => if i = 0 then [2] else []) [0, 1, 2] :=
  subscriber_notification_exact [] [] (fun i => if i = 0 then [2] else []) [0, 1, 2]
    (by decide) 1 (by decide)
    (fun i hi => by
      by_cases h0 : i = 0
      · subst h0; decide
      · simp [h0])

/-!
## ProgressContext: the long-poll driving loop

`fetchAllJobsWithLongPolling` (ProgressContext.tsx lines 43–98): the primary
poll is `getProgress(undefined, true, 30)`; a failure classified as timeout
(`err.code === 'ECONNABORTED' || err.message?.includes('timeout') ||
err.response?.status === 408`) triggers an immediate non-waiting
`getProgress(undefined, false)` resync and the loop resumes; a failed
resync retries the cycle after 2000 ms; any other failure retries after
5000 ms.
-/

/-- `needle` occurs as a contiguous sublist of the haystack (JS
`String.prototype.includes`). -/
def listContainsSub (needle : List Char) : List Char → Bool
  | [] => needle.isPrefixOf []
  | h :: t => needle.isPrefixOf (h :: t) || listContainsSub needle t

/-- JS `s.includes(sub)` over the character lists. -/
def strIncludes (s sub : String) : Bool := listContainsSub sub.data s.data

/-- The error shape inspected by the loop (`err.code`, `err.message`,
`err.response?.status`). -/
structure PollError where
  code : Option String
  message : Option String
  status : Option Nat
deriving DecidableEq, Repr

/-- The timeout classifier of the catch branch (line 67). -/
def isTimeoutError (e : PollError) : Bool :=
  (e.code == some "ECONNABORTED") || strIncludes (e.message.getD "") "timeout"
    || (e.status == some 408)

/-- Outcome of one `getProgress` call. -/
inductive PollOutcome where
  | ok (feed : Feed)
  | fail (e : PollError)
deriving DecidableEq, Repr

/-- A `getProgress` request, identified by its `wait` flag. -/
structure PollRequest where
  wait : Bool
deriving DecidableEq, Repr

/-- What the loop does after a cycle: resume immediately with a delivered
feed, or re-arm itself after a fixed delay. -/
inductive LoopReaction where
  | resume (feed : Feed)
  | retryAfter (delayMs : Nat)
deriving DecidableEq, Repr

/-- One cycle of `fetchAllJobsWithLongPolling`: the requests issued (the
primary `wait=true` poll, plus the `wait=false` resync in the timeout
branch — `resync` is only consulted there) and the resulting reaction. -/
def loopStep (primary : PollOutcome) (resync : PollOutcome) :
    List PollRequest × LoopReaction :=
  match primary with
  | .ok f => ([⟨true⟩], .resume f)
  | .fail e =>
    if isTimeoutError e then
      match resync with
      | .ok f => ([⟨true⟩, ⟨false⟩], .resume f)
      | .fail _ => ([⟨true⟩, ⟨false⟩], .retryAfter 2000)
    else ([⟨true⟩], .retryAfter 5000)

/-- C9 — A timeout of the primary poll is not an error: the loop
immediately issues the non-waiting resync request and, when it succeeds,
resumes with its feed and no delay; a failed resync is retried after a
fixed 2000 ms, any non-timeout failure after a fixed 5000 ms — two fixed
tiers, the resync tier strictly shorter, and no other delay ever occurs. -/
theorem longpoll_timeout_tiers (e e' : PollError) (f : Feed) (r : PollOutcome) :
    (isTimeoutError e = true →
        loopStep (.fail e) (.ok f) = ([⟨true⟩, ⟨false⟩], .resume f))
    ∧ (isTimeoutError e = true →
        loopStep (.fail e) (.fail e') = ([⟨true⟩, ⟨false⟩], .retryAfter 2000))
    ∧ (isTimeoutError e = false →
        loopStep (.fail e) r = ([⟨true⟩], .retryAfter 5000))
    ∧ 2000 < 5000
    ∧ (∀ p q : PollOutcome, ∀ d, (loopStep p q).2 = .retryAfter d →
        d = 2000 ∨ d = 5000) := by
  refine ⟨?_, ?_, ?_, by omega, ?_⟩
  · intro h
    simp [loopStep, h]
  · intro h
    simp [loopStep, h]
  · intro h
    simp [loopStep, h]
  · intro p q d h
    cases p with
    | ok g => simp [loopStep] at h
    | fail e2 =>
      by_cases ht : isTimeoutError e2 = true
      · cases q with
        | ok g => simp [loopStep, ht] at h
        | fail e3 =>
          simp [loopStep, ht] at h
          omega
      · have ht2 : isTimeoutError e2 = false := Bool.eq_false_iff.mpr ht
        simp [loopStep, ht2] at h
        omega

/-- Witness for C9 at a concrete axios-style timeout error. -/
theorem longpoll_timeout_tiers_witness :
    loopStep (.fail ⟨some "ECONNABORTED", some "timeout of 35000ms exceeded", none⟩)
        (.ok [])
      = ([⟨true⟩, ⟨false⟩], .resume [])
    ∧ loopStep (.fail ⟨some "ECONNABORTED", some "timeout of 35000ms exceeded", none⟩)
        (.fail ⟨none, some "Network Error", none⟩)
      = ([⟨true⟩, ⟨false⟩], .retryAfter 2000)
    ∧ loopStep (.fail ⟨none, some "Request failed with status code 500", some 500⟩)
        (.ok [])
      = ([⟨true⟩], .retryAfter 5000) :=
  ⟨(longpoll_timeout_tiers ⟨some "ECONNABORTED", some "timeout of 35000ms exceeded", none⟩
      ⟨none, some "Network Error", none⟩ [] (.ok [])).1 (by decide),
   (longpoll_timeout_tiers ⟨some "ECONNABORTED", some "timeout of 35000ms exceeded", none⟩
      ⟨none, some "Network Error", none⟩ [] (.ok [])).2.1 (by decide),
   (longpoll_timeout_tiers ⟨none, some "Request failed with status code 500", some 500⟩
      ⟨none, some "Network Error", none⟩ [] (.ok [])).2.2.1 (by decide)⟩

end PaperlessRenamer
